import Mathlib

/-!
Shallow embedding of the HyperBun HTTP convenience layer — the
createServer core (packages/hyperbun, createServer.ts) and the JSX
runtime (jsx.tsx) — together with theorems settling the specification
claims about it.

Modelling conventions:
* file-system paths are lists of path segments (POSIX separator),
  with the file system abstracted as an existence oracle;
* header maps are association lists whose names are normalised to ASCII
  lowercase, matching the case-insensitive Fetch Headers object;
* the JavaScript values a handler may return are an inductive type whose
  constructors mirror the runtime type tests made by the source.
-/

namespace HyperBun

/-! ### Definitions: the shallow embedding of the source -/

/-- ASCII lowercase of one character, as JavaScript toLowerCase acts on
the ASCII range (header names and HTTP verbs in this code are ASCII). -/
def charLower (c : Char) : Char :=
  if 'A' ≤ c ∧ c ≤ 'Z' then Char.ofNat (c.toNat + 32) else c

/-- ASCII uppercase of one character, as JavaScript toUpperCase acts on
the ASCII range. -/
def charUpper (c : Char) : Char :=
  if 'a' ≤ c ∧ c ≤ 'z' then Char.ofNat (c.toNat - 32) else c

/-- ASCII-range lowercasing of a string. -/
def asciiLower (s : String) : String := String.mk (s.toList.map charLower)

/-- ASCII-range uppercasing of a string. -/
def asciiUpper (s : String) : String := String.mk (s.toList.map charUpper)

/-- One step of the sanitising segment walk in normaliseRelativePath
(createServer.ts): empty and dot segments are discarded, a dot-dot
segment pops the accumulator (Array.pop on an empty array leaves it
empty), anything else is appended. -/
def sanitiseStep (safe : List String) (segment : String) : List String :=
  if segment = "" ∨ segment = "." then safe
  else if segment = ".." then safe.dropLast
  else safe ++ [segment]

/-- normaliseRelativePath from createServer.ts: split the decoded relative
URL path on the URL separator and walk the segments left to right with
sanitiseStep.  The TS function returns the surviving segments joined with
the platform separator; the model keeps the segment list and joins at the
use site. -/
def normaliseRelativePath (relative : String) : List String :=
  (relative.splitOn "/").foldl sanitiseStep []

/-- One segment step of Node path.resolve on an absolute accumulator:
empty and dot segments are skipped, dot-dot pops the last accumulated
segment (stopping at the filesystem root), anything else is appended. -/
def resolveStep (acc : List String) (segment : String) : List String :=
  if segment = "" ∨ segment = "." then acc
  else if segment = ".." then acc.dropLast
  else acc ++ [segment]

/-- Node path.resolve(base, p) on POSIX, for an absolute base given as its
segment list: an absolute second argument restarts from the filesystem
root, a relative one folds its segments onto the base. -/
def nodeResolve (base : List String) (p : String) : List String :=
  let start := if p.startsWith "/" then [] else base
  (p.splitOn "/").foldl resolveStep start

/-- Length of the common leading segment run of two paths, used to model
Node path.relative. -/
def commonLen : List String → List String → Nat
  | a :: as, b :: bs => if a = b then commonLen as bs + 1 else 0
  | _, _ => 0

/-- Node path.relative(root, target) for two absolute normalised paths,
as a segment list: one dot-dot per segment of root beyond the common
part, then target's segments beyond the common part. -/
def pathRelative (root target : List String) : List String :=
  List.replicate (root.length - commonLen root target) ".." ++
    target.drop (commonLen root target)

/-- isWithin from createServer.ts: path.relative(root, target) must not
start with ".." and must not be absolute.  On the segment model the
relative path is never absolute, and the joined string starts with ".."
exactly when its first segment does. -/
def isWithin (root target : List String) : Bool :=
  match pathRelative root target with
  | [] => true
  | s :: _ => !(s.startsWith "..")

/-- resolveStaticPath from createServer.ts, with Bun.file(...).exists()
abstracted as the oracle argument: sanitise the relative path, resolve it
under the root, reject anything not within the root, serve the primary
candidate when it exists, otherwise try the configured index file under
the candidate (again rejected unless within the root). -/
def resolveStaticPath (present : List String → Bool) (root : List String)
    (relative : String) (indexFile : String) : Option (List String) :=
  let safeRelative := String.intercalate "/" (normaliseRelativePath relative)
  let primary := nodeResolve root safeRelative
  if !isWithin root primary then none
  else if present primary then some primary
  else
    let withIndex := nodeResolve primary indexFile
    if !isWithin root withIndex then none
    else if present withIndex then some withIndex
    else none

/-- A sanitised segment is nonempty and neither dot nor dot-dot. -/
def goodSegment (s : String) : Bool := !(s == "" || s == "." || s == "..")

/-- Header map of a Fetch Headers object: association list in insertion
order.  Name comparisons are case-insensitive throughout, modelling the
Headers object's name normalisation. -/
abbrev HeadersM := List (String × String)

/-- Headers.has, case-insensitive on the name. -/
def hhas (hs : HeadersM) (name : String) : Bool :=
  hs.any fun kv => asciiLower kv.1 == asciiLower name

/-- Headers.get: the value stored under the case-insensitive name. -/
def hget (hs : HeadersM) (name : String) : Option String :=
  (hs.find? fun kv => asciiLower kv.1 == asciiLower name).map Prod.snd

/-- Headers.set: overwrite the value in place when a header of that
(case-insensitive) name is present, else append the pair. -/
def hset (hs : HeadersM) (name value : String) : HeadersM :=
  if hhas hs name then
    hs.map fun kv => if asciiLower kv.1 == asciiLower name then (kv.1, value) else kv
  else hs ++ [(name, value)]

/-- new Headers(init) for a record-style HeadersInit: each entry set in
turn (a JavaScript record cannot hold two identical keys). -/
def mkHeaders (init : List (String × String)) : HeadersM :=
  init.foldl (fun hs kv => hset hs kv.1 kv.2) []

/-- Binary-like handler results, one constructor per runtime test made by
isBinaryLike in createServer.ts: ArrayBuffer, ArrayBuffer view, Blob
(including BunFile), ReadableStream.  Payloads are opaque byte lists and
a stream is an opaque token. -/
inductive BinaryValue
  | arrayBuffer (data : List Nat)
  | view (data : List Nat)
  | blob (data : List Nat)
  | stream (id : Nat)
deriving DecidableEq, Repr

/-- Observable body of a Response. -/
inductive Body
  | empty
  | text (s : String)
  | binary (b : BinaryValue)
deriving DecidableEq, Repr

/-- Observable state of a Fetch Response. -/
structure HttpResponse where
  status : Nat
  statusText : String := ""
  headers : HeadersM := []
  body : Body := .empty
deriving DecidableEq, Repr

/-- JSON-serialisable JavaScript values (the structured-object case of a
handler result, and the initial-props payload of the JSX runtime). -/
inductive Json
  | null
  | bool (b : Bool)
  | num (n : Int)
  | str (s : String)
  | arr (elems : List Json)
  | obj (fields : List (String × Json))

/-- Lowercase hexadecimal digit, for JSON control-character escapes. -/
def hexDigit (n : Nat) : Char :=
  if n < 10 then Char.ofNat (48 + n) else Char.ofNat (87 + n)

/-- JSON.stringify's escaping of a single character inside a string
literal: quote and backslash are escaped, the named control characters
use their short escapes, other control characters use a u-escape, and
everything else (including every non-ASCII character) is kept as is. -/
def escapeJsonChar (c : Char) : List Char :=
  if c = '"' then ['\\', '"']
  else if c = '\\' then ['\\', '\\']
  else if c = Char.ofNat 8 then ['\\', 'b']
  else if c = Char.ofNat 9 then ['\\', 't']
  else if c = Char.ofNat 10 then ['\\', 'n']
  else if c = Char.ofNat 12 then ['\\', 'f']
  else if c = Char.ofNat 13 then ['\\', 'r']
  else if c.toNat < 32 then
    ['\\', 'u', '0', '0', hexDigit (c.toNat / 16), hexDigit (c.toNat % 16)]
  else [c]

/-- JSON string literal: escaped characters between double quotes. -/
def jsonQuote (s : String) : List Char :=
  '"' :: (s.toList.map escapeJsonChar).flatten ++ ['"']

mutual

/-- JSON.stringify on the modelled JSON values, as a character list. -/
def jsonStringify : Json → List Char
  | .null => "null".toList
  | .bool true => "true".toList
  | .bool false => "false".toList
  | .num n => (toString n).toList
  | .str s => jsonQuote s
  | .arr elems =>
      '[' :: List.intercalate [','] (jsonStringifyList elems) ++ [']']
  | .obj fields =>
      Char.ofNat 123 :: List.intercalate [','] (jsonStringifyFields fields) ++
        [Char.ofNat 125]

/-- Serialisations of the elements of a JSON array. -/
def jsonStringifyList : List Json → List (List Char)
  | [] => []
  | j :: rest => jsonStringify j :: jsonStringifyList rest

/-- Serialisations of the fields of a JSON object. -/
def jsonStringifyFields : List (String × Json) → List (List Char)
  | [] => []
  | (k, v) :: rest => (jsonQuote k ++ ':' :: jsonStringify v) :: jsonStringifyFields rest

end

/-- Content type the platform Response constructor attaches to a string
body. -/
def textPlainType : String := "text/plain;charset=utf-8"

/-- Content type Response.json attaches. -/
def applicationJsonType : String := "application/json;charset=utf-8"

/-- new Response(s) for a string body: status 200 and the platform's
text/plain content type. -/
def responseOfText (s : String) : HttpResponse :=
  { status := 200, headers := [("content-type", textPlainType)], body := .text s }

/-- new Response(b) for a binary-like body: passthrough body, no content
type set by this code. -/
def responseOfBinary (b : BinaryValue) : HttpResponse :=
  { status := 200, headers := [], body := .binary b }

/-- Response.json(value): JSON-serialised body with the JSON content
type. -/
def responseJson (j : Json) : HttpResponse :=
  { status := 200, headers := [("content-type", applicationJsonType)],
    body := .text (String.mk (jsonStringify j)) }

/-- new Response(null, status 204), built for null and undefined handler
results. -/
def response204 : HttpResponse := { status := 204 }

/-- Generic 500 produced at the orchestrator boundary. -/
def internalServerError : HttpResponse :=
  { status := 500, headers := [("content-type", textPlainType)],
    body := .text "Internal Server Error" }

/-- Generic 404 produced when nothing handled the request. -/
def notFoundResponse : HttpResponse :=
  { status := 404, headers := [("content-type", textPlainType)],
    body := .text "Not Found" }

/-- One iteration of applyBaseHeaders: a base header is set only when no
header of that (case-insensitive) name is already on the response. -/
def baseHeaderStep (res : HttpResponse) (kv : String × String) : HttpResponse :=
  if hhas res.headers kv.1 then res
  else { res with headers := hset res.headers kv.1 kv.2 }

/-- applyBaseHeaders from createServer.ts: with no base headers the
response is untouched; otherwise the configured base headers are iterated
and each is set only when absent from the response. -/
def applyBaseHeaders (response : HttpResponse)
    (base? : Option (List (String × String))) : HttpResponse :=
  match base? with
  | none => response
  | some base => (mkHeaders base).foldl baseHeaderStep response

/-- cloneResponse from createServer.ts: Response.clone keeps status,
statusText, headers and body (the fallback path reconstructs the same
observable response), after which base headers are merged onto the
clone. -/
def cloneResponse (response : HttpResponse)
    (base? : Option (List (String × String))) : HttpResponse :=
  applyBaseHeaders response base?

/-- Values a handler may return, one constructor per runtime test made by
normaliseResponse in createServer.ts, in the order the source tests them:
instanceof Response; null or undefined; typeof string; typeof number,
boolean, bigint; the binary-like checks; any remaining object. -/
inductive HandlerResult
  | response (r : HttpResponse)
  | nullish
  | str (s : String)
  | num (n : Int)
  | boolean (b : Bool)
  | bigint (n : Int)
  | binary (b : BinaryValue)
  | obj (j : Json)

/-- normaliseResponse from createServer.ts: total and deterministic over
every handler-result variant, with base headers merged onto whichever
response is produced. -/
def normaliseResponse (result : HandlerResult)
    (base? : Option (List (String × String))) : HttpResponse :=
  match result with
  | .response r => applyBaseHeaders r base?
  | .nullish => applyBaseHeaders response204 base?
  | .str s => applyBaseHeaders (responseOfText s) base?
  | .num n => applyBaseHeaders (responseOfText (toString n)) base?
  | .boolean b => applyBaseHeaders (responseOfText (cond b "true" "false")) base?
  | .bigint n => applyBaseHeaders (responseOfText (toString n)) base?
  | .binary b => applyBaseHeaders (responseOfBinary b) base?
  | .obj j => applyBaseHeaders (responseJson j) base?

/-- The recognised HTTP verbs, in the order METHODS declares them in
createServer.ts. -/
def METHODS : List String :=
  ["GET", "POST", "PUT", "PATCH", "DELETE", "OPTIONS", "HEAD"]

/-- Value of a method-table entry: a handler function (identified by an
opaque token) or a pre-built Response. -/
inductive TableValue
  | handler (id : Nat)
  | response (r : HttpResponse)
deriving DecidableEq, Repr

/-- Result of normaliseMethodTable: the Map from verbs (and ALL) to
entries and the Set of declared verbs, both in insertion order. -/
structure NormTable where
  methods : List (String × TableValue) := []
  allowed : List String := []
deriving DecidableEq, Repr

/-- Map.get on an association list. -/
def mget (m : List (String × TableValue)) (key : String) : Option TableValue :=
  (m.find? fun kv => kv.1 == key).map Prod.snd

/-- Map.set on an association list: overwrite in place when the key is
present, else append. -/
def mset (m : List (String × TableValue)) (key : String) (v : TableValue) :
    List (String × TableValue) :=
  if m.any fun kv => kv.1 == key then
    m.map fun kv => if kv.1 == key then (kv.1, v) else kv
  else m ++ [(key, v)]

/-- Set.add on a list kept in insertion order. -/
def sadd (s : List String) (x : String) : List String :=
  if s.contains x then s else s ++ [x]

/-- Key loop of normaliseMethodTable from createServer.ts, over the
object's keys in declaration order: the uppercased key is the wildcard,
a recognised verb (set into the map and recorded in the allowed set when
its value is defined), or a TypeError.  The accumulator carries the map
and the allowed set built so far. -/
def normaliseMethodTableGo (acc : NormTable) :
    List (String × Option TableValue) → Except String NormTable
  | [] => .ok acc
  | (key, value) :: rest =>
    let methodKey := asciiUpper key
    if methodKey = "ALL" then
      match value with
      | some v =>
          normaliseMethodTableGo { acc with methods := mset acc.methods "ALL" v } rest
      | none => normaliseMethodTableGo acc rest
    else if METHODS.contains methodKey then
      match value with
      | some v =>
          normaliseMethodTableGo
            { acc with
              methods := mset acc.methods methodKey v,
              allowed := sadd acc.allowed methodKey } rest
      | none => normaliseMethodTableGo acc rest
    else .error ("Unsupported HTTP method key " ++ key)

/-- normaliseMethodTable from createServer.ts.  The Partial record type
means a key may be present with an undefined value, hence the Option in
each entry. -/
def normaliseMethodTable (entries : List (String × Option TableValue)) :
    Except String NormTable :=
  normaliseMethodTableGo {} entries

/-- Outcome of method dispatch at the route handler: invoke a handler or
answer with a response. -/
inductive DispatchOutcome
  | invoke (id : Nat)
  | respond (r : HttpResponse)
deriving DecidableEq, Repr

/-- The 405 response built by the route handler: Method Not Allowed with
an Allow header only when at least one verb is declared; the platform
adds the text content type for the string body. -/
def methodNotAllowed (allowHeader : String) : HttpResponse :=
  { status := 405,
    headers := (if allowHeader ≠ "" then [("Allow", allowHeader)] else []) ++
      [("content-type", textPlainType)],
    body := .text "Method Not Allowed" }

/-- What a selected method-table entry does: a pre-built Response is
cloned with base headers merged, a handler is invoked. -/
def outcomeOf (v : TableValue)
    (base? : Option (List (String × String))) : DispatchOutcome :=
  match v with
  | .response r => .respond (cloneResponse r base?)
  | .handler id => .invoke id

/-- The per-request closure created by createRouteHandler for a method
table: uppercase the inbound method, look it up, fall back to the
wildcard entry, and answer 405 with the comma-joined allowed verbs when
neither exists. -/
def dispatchMethod (table : NormTable)
    (base? : Option (List (String × String))) (reqMethod : String) :
    DispatchOutcome :=
  match mget table.methods (asciiUpper reqMethod) with
  | some v => outcomeOf v base?
  | none =>
    match mget table.methods "ALL" with
    | some v => outcomeOf v base?
    | none => .respond (applyBaseHeaders
        (methodNotAllowed (String.intercalate ", " table.allowed)) base?)

/-- The verbs a method table declares with a defined entry, uppercased,
in declaration order (the wildcard never satisfies the METHODS test). -/
def declaredVerbs (entries : List (String × Option TableValue)) : List String :=
  entries.filterMap fun kv =>
    match kv.2 with
    | some _ =>
        if METHODS.contains (asciiUpper kv.1) then some (asciiUpper kv.1) else none
    | none => none

/-- Entry of the user route table, one constructor per runtime test in
createRouteHandler: a pre-built Response, a handler function, or a
method table. -/
inductive RouteEntry
  | response (r : HttpResponse)
  | handler (id : Nat)
  | table (entries : List (String × Option TableValue))

/-- Per-pattern handler compiled by createRouteHandler at setup time. -/
inductive CompiledRoute
  | constResponse (r : HttpResponse)
  | handlerFn (id : Nat)
  | methodTable (t : NormTable)

/-- createRouteHandler from createServer.ts: a Response entry is answered
by cloning; a function entry is executed per request; an object entry has
its method table normalised eagerly — the TypeError an unknown verb key
raises is thrown here, inside createServer, before the server starts. -/
def createRouteHandler (entry : RouteEntry) : Except String CompiledRoute :=
  match entry with
  | .response r => .ok (.constResponse r)
  | .handler id => .ok (.handlerFn id)
  | .table entries => (normaliseMethodTable entries).map .methodTable

/-- mapRoutes from createServer.ts: every pattern's entry is compiled at
setup time, and the first configuration error aborts createServer. -/
def mapRoutes :
    List (String × RouteEntry) → Except String (List (String × CompiledRoute))
  | [] => .ok []
  | (pattern, entry) :: rest =>
    match createRouteHandler entry with
    | .error e => .error e
    | .ok compiledEntry =>
      match mapRoutes rest with
      | .error e => .error e
      | .ok compiledRest => .ok ((pattern, compiledEntry) :: compiledRest)

/-- Uppercasing every key of a method table. -/
def upperKeys (entries : List (String × Option TableValue)) :
    List (String × Option TableValue) :=
  entries.map fun kv => (asciiUpper kv.1, kv.2)

/-- A JavaScript exception value, opaque to this code. -/
structure JsError where
  id : Nat
deriving DecidableEq, Repr

/-- handleError from createServer.ts, applied to the outcome of invoking
the configured hook: a response result is returned with base headers
merged; a nothing result yields null so the caller falls through; a hook
that itself throws yields the generic 500 (with base headers). -/
def handleError (hookOutcome : Except JsError (Option HttpResponse))
    (base? : Option (List (String × String))) : Option HttpResponse :=
  match hookOutcome with
  | .ok (some r) => some (applyBaseHeaders r base?)
  | .ok none => none
  | .error _ => some (applyBaseHeaders internalServerError base?)

/-- executeHandler from createServer.ts, applied to the handler's
outcome (a returned value or a thrown error): a returned value is
normalised; a thrown error is routed through the error hook when one is
configured, and the generic 500 is produced when the hook is absent or
handleError yields nothing. -/
def executeHandler (handlerOutcome : Except JsError HandlerResult)
    (onError : Option (JsError → Except JsError (Option HttpResponse)))
    (base? : Option (List (String × String))) : HttpResponse :=
  match handlerOutcome with
  | .ok result => normaliseResponse result base?
  | .error e =>
    match onError with
    | some hook =>
      match handleError (hook e) base? with
      | some recovery => recovery
      | none => applyBaseHeaders internalServerError base?
    | none => applyBaseHeaders internalServerError base?

/-- Left-to-right global replacement of the two-character pattern a b by
the replacement list, as String.prototype.replace scans with a global
regex: after a match the scan resumes past it. -/
def replacePair (a b : Char) (repl : List Char) : List Char → List Char
  | c :: d :: rest =>
    if c = a ∧ d = b then repl ++ replacePair a b repl rest
    else c :: replacePair a b repl (d :: rest)
  | l => l

/-- Left-to-right global replacement of the three-character pattern
a b c by the replacement list. -/
def replaceTriple (a b c : Char) (repl : List Char) : List Char → List Char
  | x :: y :: z :: rest =>
    if x = a ∧ y = b ∧ z = c then repl ++ replaceTriple a b c repl rest
    else x :: replaceTriple a b c repl (y :: z :: rest)
  | l => l

/-- Whether the two-character sequence a b occurs somewhere. -/
def hasPair (a b : Char) : List Char → Bool
  | c :: d :: rest => (c = a && d = b) || hasPair a b (d :: rest)
  | _ => false

/-- Whether the three-character sequence a b c occurs somewhere. -/
def hasTriple (a b c : Char) : List Char → Bool
  | x :: y :: z :: rest => (x = a && y = b && z = c) || hasTriple a b c (y :: z :: rest)
  | _ => false

/-- The per-character replacement of serializeProps (jsx.tsx): each
lower-than character of the serialised JSON becomes the six-character
escape backslash u 0 0 3 c. -/
def escapeLt : List Char → List Char
  | [] => []
  | c :: rest =>
    if c = '<' then '\\' :: 'u' :: '0' :: '0' :: '3' :: 'c' :: escapeLt rest
    else c :: escapeLt rest

/-- sanitizeScript from jsx.tsx: globally replace lower-than slash by
lower-than backslash slash, then dash dash greater-than by dash dash
backslash greater-than. -/
def sanitizeScript (value : List Char) : List Char :=
  replaceTriple '-' '-' '>' ['-', '-', '\\', '>']
    (replacePair '<' '/' ['<', '\\', '/'] value)

/-- serializeProps from jsx.tsx: JSON.stringify the props and escape
every lower-than character. -/
def serializeProps (props : Json) : List Char :=
  escapeLt (jsonStringify props)

/-- The inline bootstrap script HyperBunHydrationScripts builds when a
page hydrates: the route assignment from JSON.stringify, then the props
assignment when initial props exist, the whole template passed through
sanitizeScript. -/
def bootstrapScript (route : String) (props? : Option Json) : List Char :=
  sanitizeScript
    ("globalThis.__HYPERBUN_ROUTE__=".toList ++ jsonStringify (Json.str route) ++
      [';'] ++
      (match props? with
       | some props =>
           "globalThis.__HYPERBUN_PROPS__=".toList ++ serializeProps props ++ [';']
       | none => []))

/-- Hydration option of a JSX page: absent, a boolean, or a
request-derived function (identified opaquely). -/
inductive HydrateOpt
  | unset
  | flag (b : Bool)
  | derived (id : Nat)
deriving DecidableEq, Repr

/-- Reference to a component module: resolved module path (as segments
under the base directory) and export name. -/
structure ComponentReference where
  modulePath : List String
  exportName : String
deriving DecidableEq, Repr

/-- normalizeComponentSpec's result: an in-process component and/or a
module reference. -/
structure NormalizedComponent where
  reference : Option ComponentReference := none
  component : Option Nat := none
deriving DecidableEq, Repr

/-- Ways a page component may be specified (ComponentSpec in jsx.tsx):
an in-process function, a module string of the form path-hash-export, an
object with a module path and optional export, or an object carrying a
function plus an optional module path and export. -/
inductive ComponentSpec
  | func (id : Nat)
  | str (s : String)
  | moduleObj (module : String) (exportName? : Option String)
  | componentObj (id : Nat) (module? : Option String) (exportName? : Option String)

/-- parseComponentSpecifier from jsx.tsx: split on the hash; an empty
module path is an error; a missing export name defaults to default. -/
def parseComponentSpecifier (specifier : String) :
    Except String (String × String) :=
  match specifier.splitOn "#" with
  | [] => .error ("Invalid component specifier " ++ specifier)
  | modulePath :: rest =>
    if modulePath = "" then .error ("Invalid component specifier " ++ specifier)
    else .ok (modulePath, rest.headD "default")

/-- normalizeComponentSpec from jsx.tsx, with module paths resolved
against the base directory by the Node resolver. -/
def normalizeComponentSpec (spec : ComponentSpec) (baseDir : List String) :
    Except String NormalizedComponent :=
  match spec with
  | .func id => .ok { component := some id }
  | .str s =>
    (parseComponentSpecifier s).map fun pe =>
      { reference := some ⟨nodeResolve baseDir pe.1, pe.2⟩ }
  | .componentObj id module? exportName? =>
    .ok { component := some id,
          reference := module?.map fun m =>
            ⟨nodeResolve baseDir m, exportName?.getD "default"⟩ }
  | .moduleObj m exportName? =>
    .ok { reference := some ⟨nodeResolve baseDir m, exportName?.getD "default"⟩ }

/-- The hydrate options that request hydration in
ensureHydratableCapability (jsx.tsx): undefined, true, or a function. -/
def wantsHydration : HydrateOpt → Bool
  | .unset => true
  | .flag b => b
  | .derived _ => true

/-- ensureHydratableCapability from jsx.tsx: a page that requests
hydration but whose component has no module reference raises a
configuration error. -/
def ensureHydratableCapability (route : String) (hydrate : HydrateOpt)
    (descriptor : NormalizedComponent) (isNotFound : Bool) :
    Except String Unit :=
  if wantsHydration hydrate ∧ descriptor.reference = none then
    .error ((if isNotFound then "notFoundPage" else "page " ++ route) ++
      " is configured to hydrate but no module reference was provided")
  else .ok ()

/-- A configured JSX page, reduced to the fields setup validation
reads. -/
structure JSXPage where
  component : ComponentSpec
  hydrate : HydrateOpt := .unset

/-- buildComponentDescriptors from jsx.tsx: normalise every page's
component, in declaration order, keeping the page's hydrate option
alongside for the capability check that follows. -/
def buildComponentDescriptors (baseDir : List String) :
    List (String × JSXPage) →
      Except String (List (String × HydrateOpt × NormalizedComponent))
  | [] => .ok []
  | (route, page) :: rest =>
    match normalizeComponentSpec page.component baseDir with
    | .error e => .error e
    | .ok descriptor =>
      match buildComponentDescriptors baseDir rest with
      | .error e => .error e
      | .ok ds => .ok ((route, page.hydrate, descriptor) :: ds)

/-- The per-page loop of prepareJSXEnvironment: every descriptor is run
through ensureHydratableCapability. -/
def ensureAllPages :
    List (String × HydrateOpt × NormalizedComponent) → Except String Unit
  | [] => .ok ()
  | (route, hydrate, descriptor) :: rest =>
    match ensureHydratableCapability route hydrate descriptor false with
    | .error e => .error e
    | .ok _ => ensureAllPages rest

/-- The validation prepareJSXEnvironment (jsx.tsx) performs before any
request handler exists: at least one page; every page normalised and
capability-checked; then the optional notFound page normalised and
capability-checked. -/
def prepareJSXEnvironment (pages : List (String × JSXPage))
    (notFoundPage : Option JSXPage) (baseDir : List String) :
    Except String Unit :=
  if pages.isEmpty then
    .error "createJSXServer requires at least one page definition"
  else
    match buildComponentDescriptors baseDir pages with
    | .error e => .error e
    | .ok descriptors =>
      match ensureAllPages descriptors with
      | .error e => .error e
      | .ok _ =>
        match notFoundPage with
        | none => .ok ()
        | some nf =>
          match normalizeComponentSpec nf.component baseDir with
          | .error e => .error e
          | .ok descriptor =>
            match ensureHydratableCapability "notFound" nf.hydrate descriptor true with
            | .error e => .error e
            | .ok _ => .ok ()

/-- A request, reduced to what dispatch inspects: method and path. -/
structure Request where
  method : String
  path : String
deriving DecidableEq, Repr

/-- A static handler as installed by buildStaticHandlers: a function from
the request to an optional response, none being the soft miss that lets
the next stage run. -/
abbrev StaticHandler := Request → Option HttpResponse

/-- The for loop over static handlers at the top of the fetch handler in
createServer.ts: first produced response wins, in declaration order. -/
def firstStatic (handlers : List StaticHandler) (req : Request) :
    Option HttpResponse :=
  match handlers with
  | [] => none
  | h :: rest =>
    match h req with
    | some r => some r
    | none => firstStatic rest req

/-- The configured notFound entry: a pre-built Response or a handler
whose outcome on a given request is a returned value or a thrown
error. -/
inductive NotFoundEntry
  | response (r : HttpResponse)
  | handler (outcome : Request → Except JsError HandlerResult)

/-- The fetch fallback of createServer (fetchHandler in createServer.ts):
try each static handler in declaration order and return the first
produced response; else resolve the configured notFound entry (a thrown
error routed through the hook exactly as in executeHandler); else the
generic 404 — all with base headers merged. -/
def fetchHandler (staticHandlers : List StaticHandler)
    (notFound : Option NotFoundEntry)
    (onError : Option (JsError → Except JsError (Option HttpResponse)))
    (base? : Option (List (String × String))) (req : Request) : HttpResponse :=
  match firstStatic staticHandlers req with
  | some r => r
  | none =>
    match notFound with
    | some (.response r) => cloneResponse r base?
    | some (.handler h) =>
      match h req with
      | .ok result => normaliseResponse result base?
      | .error e =>
        match onError with
        | some hook =>
          match handleError (hook e) base? with
          | some recovery => recovery
          | none => applyBaseHeaders internalServerError base?
        | none => applyBaseHeaders internalServerError base?
    | none => applyBaseHeaders notFoundResponse base?

/-- A compiled route handler's behaviour on a request. -/
abbrev RouteHandlerFn := Request → HttpResponse

/-- Dispatch of the host runtime's server. Modelled from the host
runtime's documented contract (Bun.serve): the routes object passed by
createServer is consulted first — a request whose path matches a
declared pattern is answered by that pattern's handler — and the fetch
handler is invoked only as the fallback for requests matching no route.
Pattern syntax is owned by the host; exact path equality is the fragment
of it used here. -/
def serveRequest (routes : List (String × RouteHandlerFn))
    (fetchFallback : Request → HttpResponse) (req : Request) : HttpResponse :=
  match routes.find? fun pr => pr.1 == req.path with
  | some pr => pr.2 req
  | none => fetchFallback req

/-! ### Theorems: supporting lemmas and the claim theorems -/

theorem sanitiseStep_all_good (l : List String) (acc : List String)
    (h : acc.all goodSegment = true) :
    (l.foldl sanitiseStep acc).all goodSegment = true := by
  induction l generalizing acc with
  | nil => exact h
  | cons seg rest ih =>
    simp only [List.foldl_cons]
    apply ih
    by_cases h1 : seg = "" ∨ seg = "."
    · simpa [sanitiseStep, h1] using h
    · by_cases h2 : seg = ".."
      · simp only [sanitiseStep, h1, if_false, h2, if_true]
        simp only [List.all_eq_true] at h ⊢
        intro x hx
        exact h x ((List.dropLast_sublist _).subset hx)
      · have hg : goodSegment seg = true := by
          simp only [goodSegment, Bool.not_eq_true', Bool.or_eq_false_iff,
            beq_eq_false_iff_ne, ne_eq]
          push_neg at h1
          exact ⟨⟨h1.1, h1.2⟩, h2⟩
        simp only [sanitiseStep, h1, if_false, h2, List.all_append, h,
          List.all_cons, hg, List.all_nil, Bool.and_self]

theorem resolveStaticPath_all_within (present : List String → Bool)
    (root : List String) (relative indexFile : String) :
    ((resolveStaticPath present root relative indexFile).all
      fun p => isWithin root p) = true := by
  simp only [resolveStaticPath]
  by_cases h1 : isWithin root
      (nodeResolve root (String.intercalate "/" (normaliseRelativePath relative)))
  · simp only [h1, Bool.not_true, Bool.false_eq_true, if_false]
    by_cases h2 : present
        (nodeResolve root (String.intercalate "/" (normaliseRelativePath relative)))
    · simp [h2, Option.all, h1]
    · simp only [h2, Bool.false_eq_true, if_false]
      by_cases h3 : isWithin root
          (nodeResolve
            (nodeResolve root (String.intercalate "/" (normaliseRelativePath relative)))
            indexFile)
      · by_cases h4 : present
            (nodeResolve
              (nodeResolve root (String.intercalate "/" (normaliseRelativePath relative)))
              indexFile)
        · simp [h3, h4, Option.all]
        · simp [h3, h4]
      · simp [h3]
  · simp only [Bool.not_eq_true] at h1
    simp [h1]

/-- Claim C1: for every configured root directory, index file name, and
decoded relative URL path, the static path resolver returns either a
not-found signal (none) or a path lexically contained within the root —
in particular no dot-dot input escapes the root — and the sanitising
segment walk never pops the accumulator below empty: its result consists
only of real segments (never empty, dot, or dot-dot). -/
theorem C1_static_path_containment :
    (∀ (present : List String → Bool) (root : List String)
        (relative indexFile : String),
      ((resolveStaticPath present root relative indexFile).all
        fun p => isWithin root p) = true) ∧
    (∀ relative : String,
      (normaliseRelativePath relative).all goodSegment = true) :=
  ⟨fun present root relative indexFile =>
      resolveStaticPath_all_within present root relative indexFile,
    fun relative => sanitiseStep_all_good (relative.splitOn "/") [] rfl⟩

theorem hget_eq_none_of_hhas_false (hs : HeadersM) (name : String)
    (h : hhas hs name = false) : hget hs name = none := by
  simp only [hhas, List.any_eq_false] at h
  have hfind : (hs.find? fun kv => asciiLower kv.1 == asciiLower name) = none := by
    rw [List.find?_eq_none]
    intro x hx
    simpa using h x hx
  simp [hget, hfind]

theorem hget_isSome_of_hhas (hs : HeadersM) (name : String)
    (h : hhas hs name = true) : ∃ v, hget hs name = some v := by
  simp only [hhas, List.any_eq_true] at h
  have hsome : (hs.find? fun kv => asciiLower kv.1 == asciiLower name).isSome := by
    rw [List.find?_isSome]
    exact h
  cases hf : hs.find? fun kv => asciiLower kv.1 == asciiLower name with
  | none => rw [hf] at hsome; exact absurd hsome (by simp)
  | some v => exact ⟨v.2, by simp [hget, hf]⟩

theorem baseHeaderStep_status (res : HttpResponse) (kv : String × String) :
    (baseHeaderStep res kv).status = res.status ∧
    (baseHeaderStep res kv).statusText = res.statusText ∧
    (baseHeaderStep res kv).body = res.body := by
  unfold baseHeaderStep
  split <;> exact ⟨rfl, rfl, rfl⟩

theorem foldl_baseHeaderStep_preserves (bs : HeadersM) (res : HttpResponse) :
    (bs.foldl baseHeaderStep res).status = res.status ∧
    (bs.foldl baseHeaderStep res).statusText = res.statusText ∧
    (bs.foldl baseHeaderStep res).body = res.body := by
  induction bs generalizing res with
  | nil => exact ⟨rfl, rfl, rfl⟩
  | cons kv bs ih =>
    simp only [List.foldl_cons]
    have h1 := ih (baseHeaderStep res kv)
    have h2 := baseHeaderStep_status res kv
    exact ⟨h1.1.trans h2.1, h1.2.1.trans h2.2.1, h1.2.2.trans h2.2.2⟩

theorem applyBaseHeaders_status (r : HttpResponse)
    (base? : Option (List (String × String))) :
    (applyBaseHeaders r base?).status = r.status := by
  cases base? with
  | none => rfl
  | some base => exact (foldl_baseHeaderStep_preserves _ _).1

theorem applyBaseHeaders_body (r : HttpResponse)
    (base? : Option (List (String × String))) :
    (applyBaseHeaders r base?).body = r.body := by
  cases base? with
  | none => rfl
  | some base => exact (foldl_baseHeaderStep_preserves _ _).2.2

theorem hhas_congr (hs : HeadersM) (n m : String)
    (h : asciiLower n = asciiLower m) : hhas hs n = hhas hs m := by
  simp only [hhas, h]

theorem hhas_append_single (hs : HeadersM) (kv : String × String) (name : String) :
    hhas (hs ++ [kv]) name =
      (hhas hs name || (asciiLower kv.1 == asciiLower name)) := by
  simp [hhas]

theorem hget_append_single (hs : HeadersM) (kv : String × String) (name : String) :
    hget (hs ++ [kv]) name =
      if (hget hs name).isSome then hget hs name
      else if asciiLower kv.1 == asciiLower name then some kv.2 else none := by
  induction hs with
  | nil =>
    simp only [List.nil_append]
    by_cases hm : (asciiLower kv.1 == asciiLower name) = true
    · simp [hget, List.find?_cons_of_pos _ hm, hm]
    · simp [hget, List.find?_cons_of_neg _ hm, hm]
  | cons p rest ih =>
    by_cases hp : (asciiLower p.1 == asciiLower name) = true
    · have h1 := List.find?_cons_of_pos
        (p := fun kv => asciiLower kv.1 == asciiLower name) (rest ++ [kv]) hp
      have h2 := List.find?_cons_of_pos
        (p := fun kv => asciiLower kv.1 == asciiLower name) rest hp
      simp [hget, h1, h2]
    · have hneg := List.find?_cons_of_neg
        (p := fun kv => asciiLower kv.1 == asciiLower name) (a := p)
        (l := rest ++ [kv]) (by simpa using hp)
      have hneg' := List.find?_cons_of_neg
        (p := fun kv => asciiLower kv.1 == asciiLower name) (a := p)
        (l := rest) (by simpa using hp)
      simp only [List.cons_append, hget, hneg, hneg']
      simpa [hget] using ih

theorem foldl_baseHeaderStep_hget (bs : HeadersM) (res : HttpResponse)
    (name : String) :
    hget (bs.foldl baseHeaderStep res).headers name =
      (if hhas res.headers name then hget res.headers name else hget bs name) := by
  induction bs generalizing res with
  | nil =>
    by_cases h : hhas res.headers name
    · simp [h]
    · simp only [Bool.not_eq_true] at h
      simp only [List.foldl_nil, h, Bool.false_eq_true, if_false]
      exact hget_eq_none_of_hhas_false _ _ h
  | cons kv bs ih =>
    simp only [List.foldl_cons]
    rw [ih]
    by_cases hc : hhas res.headers kv.1
    · have hstep : baseHeaderStep res kv = res := by
        simp [baseHeaderStep, hc]
      rw [hstep]
      by_cases hn : hhas res.headers name
      · simp [hn]
      · have hne : ¬(asciiLower kv.1 == asciiLower name) = true := by
          intro heq
          simp only [beq_iff_eq] at heq
          rw [hhas_congr res.headers kv.1 name heq] at hc
          exact absurd hc (by simpa using hn)
        simp only [Bool.not_eq_true] at hn
        simp only [hn, Bool.false_eq_true, if_false, hget]
        rw [List.find?_cons_of_neg _ (by simpa using hne)]
    · have hstep : baseHeaderStep res kv =
          { res with headers := res.headers ++ [(kv.1, kv.2)] } := by
        simp [baseHeaderStep, hc, hset]
      rw [hstep]
      simp only
      by_cases ha : (asciiLower kv.1 == asciiLower name) = true
      · have hrn : hhas res.headers name = false := by
          simp only [beq_iff_eq] at ha
          rw [← hhas_congr res.headers kv.1 name ha]
          simpa using hc
        have hout : hhas (res.headers ++ [(kv.1, kv.2)]) name = true := by
          rw [hhas_append_single]
          simp [ha]
        rw [hout]
        simp only [if_true, hrn, Bool.false_eq_true, if_false]
        rw [hget_append_single, hget_eq_none_of_hhas_false _ _ hrn]
        have hcons : hget (kv :: bs) name = some kv.2 := by
          simp only [hget]
          rw [List.find?_cons_of_pos bs ha]
          rfl
        rw [hcons]
        simp [ha]
      · have hout : hhas (res.headers ++ [(kv.1, kv.2)]) name =
            hhas res.headers name := by
          rw [hhas_append_single]
          simp [ha]
        rw [hout]
        by_cases hn : hhas res.headers name
        · simp only [hn, if_true]
          rw [hget_append_single]
          obtain ⟨v, hv⟩ := hget_isSome_of_hhas res.headers name hn
          rw [hv]
          simp
        · simp only [Bool.not_eq_true] at hn
          simp only [hn, Bool.false_eq_true, if_false, hget]
          rw [List.find?_cons_of_neg _ (by simpa using ha)]

/-- Claim C2: response normalisation is total and deterministic (it is a
Lean function) and maps each handler-result variant as stated: a
pre-built response passes through; null or undefined yields an empty
response with status 204; a string yields a text body; a number,
boolean or bigint yields its stringified form as a text body; a
binary-like value passes through as the body with no header set by the
normalizer; any other object yields a JSON-serialised body with the
application/json content type. -/
theorem C2_normalise_response_variants :
    (∀ r : HttpResponse, normaliseResponse (.response r) none = r) ∧
    (∀ base?, (normaliseResponse .nullish base?).status = 204 ∧
      (normaliseResponse .nullish base?).body = .empty) ∧
    (∀ base? s, (normaliseResponse (.str s) base?).body = .text s) ∧
    (∀ base? (n : Int),
      (normaliseResponse (.num n) base?).body = .text (toString n)) ∧
    (∀ base? b, (normaliseResponse (.boolean b) base?).body =
      .text (cond b "true" "false")) ∧
    (∀ base? (n : Int),
      (normaliseResponse (.bigint n) base?).body = .text (toString n)) ∧
    (∀ base? b, (normaliseResponse (.binary b) base?).body = .binary b) ∧
    (∀ b, (normaliseResponse (.binary b) none).headers = []) ∧
    (∀ j, (normaliseResponse (.obj j) none).body =
        .text (String.mk (jsonStringify j)) ∧
      hget (normaliseResponse (.obj j) none).headers "content-type" =
        some applicationJsonType) := by
  refine ⟨fun r => rfl, fun base? => ⟨?_, ?_⟩, fun base? s => ?_,
    fun base? n => ?_, fun base? b => ?_, fun base? n => ?_,
    fun base? b => ?_, fun b => rfl, fun j => ⟨rfl, ?_⟩⟩
  · exact applyBaseHeaders_status response204 base?
  · exact applyBaseHeaders_body response204 base?
  · exact applyBaseHeaders_body (responseOfText s) base?
  · exact applyBaseHeaders_body (responseOfText (toString n)) base?
  · exact applyBaseHeaders_body (responseOfText (cond b "true" "false")) base?
  · exact applyBaseHeaders_body (responseOfText (toString n)) base?
  · exact applyBaseHeaders_body (responseOfBinary b) base?
  · rfl

/-- Claim C6: passing a pre-built response through normalisation with any
base-header configuration leaves status, status text and body unchanged,
and on headers: a name already present on the response keeps its value
(never overwritten), while a name not present takes its value from the
configured base headers (or stays absent). -/
theorem C6_prebuilt_response_base_merge :
    ∀ (r : HttpResponse) (base : List (String × String)) (name : String),
      (normaliseResponse (.response r) (some base)).status = r.status ∧
      (normaliseResponse (.response r) (some base)).statusText = r.statusText ∧
      (normaliseResponse (.response r) (some base)).body = r.body ∧
      hget (normaliseResponse (.response r) (some base)).headers name =
        (if hhas r.headers name then hget r.headers name
         else hget (mkHeaders base) name) := by
  intro r base name
  refine ⟨(foldl_baseHeaderStep_preserves _ _).1,
    (foldl_baseHeaderStep_preserves _ _).2.1,
    (foldl_baseHeaderStep_preserves _ _).2.2, ?_⟩
  exact foldl_baseHeaderStep_hget (mkHeaders base) r name

theorem normaliseMethodTableGo_allowed
    (entries : List (String × Option TableValue)) (acc t : NormTable)
    (h : normaliseMethodTableGo acc entries = .ok t) :
    t.allowed = (declaredVerbs entries).foldl sadd acc.allowed := by
  induction entries generalizing acc with
  | nil =>
    simp only [normaliseMethodTableGo] at h
    cases h
    rfl
  | cons kv rest ih =>
    obtain ⟨key, value⟩ := kv
    simp only [normaliseMethodTableGo] at h
    by_cases hall : asciiUpper key = "ALL"
    · rw [if_pos hall] at h
      have hc : METHODS.contains (asciiUpper key) = false := by
        rw [hall]; decide
      have hc' : ¬asciiUpper key ∈ METHODS := by
        rw [hall]; decide
      cases value with
      | some v =>
        rw [ih _ h]
        simp [declaredVerbs, List.filterMap_cons, hc, hc']
      | none =>
        rw [ih _ h]
        simp [declaredVerbs, List.filterMap_cons]
    · rw [if_neg hall] at h
      by_cases hmem : METHODS.contains (asciiUpper key) = true
      · have hmem' : asciiUpper key ∈ METHODS := by
          simpa using hmem
        rw [if_pos hmem] at h
        cases value with
        | some v =>
          rw [ih _ h]
          simp [declaredVerbs, List.filterMap_cons, hmem, hmem']
        | none =>
          rw [ih _ h]
          simp [declaredVerbs, List.filterMap_cons]
      · rw [if_neg hmem] at h
        exact absurd h (by simp)

/-- Claim C3 as amended: verb dispatch prefers the exact entry, falls
back to the wildcard exactly when one exists, and otherwise answers 405
with an Allow header that comma-joins the declared verbs in declaration
order, the wildcard excluded (it never enters the allowed set); when no
verb at all is declared the Allow header is omitted rather than sent
with an empty value. -/
theorem C3_method_table_dispatch :
    (∀ entries t, normaliseMethodTable entries = Except.ok t →
      t.allowed = (declaredVerbs entries).foldl sadd []) ∧
    (∀ table base? m v, mget table.methods (asciiUpper m) = some v →
      dispatchMethod table base? m = outcomeOf v base?) ∧
    (∀ table base? m v, mget table.methods (asciiUpper m) = none →
      mget table.methods "ALL" = some v →
      dispatchMethod table base? m = outcomeOf v base?) ∧
    (∀ table base? m, mget table.methods (asciiUpper m) = none →
      mget table.methods "ALL" = none →
      dispatchMethod table base? m = .respond (applyBaseHeaders
        (methodNotAllowed (String.intercalate ", " table.allowed)) base?)) ∧
    (∀ s, ¬s = "" → (methodNotAllowed s).status = 405 ∧
      hget (methodNotAllowed s).headers "allow" = some s) ∧
    ((methodNotAllowed "").status = 405 ∧
      hget (methodNotAllowed "").headers "allow" = none) := by
  refine ⟨fun entries t h => normaliseMethodTableGo_allowed entries {} t h,
    fun table base? m v h => ?_, fun table base? m v h1 h2 => ?_,
    fun table base? m h1 h2 => ?_, fun s hs => ⟨rfl, ?_⟩, rfl, by decide⟩
  · simp [dispatchMethod, h]
  · simp [dispatchMethod, h1, h2]
  · simp [dispatchMethod, h1, h2]
  · simp only [methodNotAllowed, if_pos hs, hget, List.cons_append,
      List.nil_append]
    have hpos : (asciiLower (("Allow", s) : String × String).1 ==
        asciiLower "allow") = true := by
      show (asciiLower "Allow" == asciiLower "allow") = true
      decide
    have hfind := List.find?_cons_of_pos
      (p := fun kv : String × String => asciiLower kv.1 == asciiLower "allow")
      (a := ("Allow", s)) [("content-type", textPlainType)] hpos
    rw [hfind]
    rfl

/-- Concrete application of C3: a table declaring only GET answers a POST
with the 405 outcome carrying the header value GET, and dispatches a GET
to the declared handler. -/
theorem C3_method_table_dispatch_witness :
    dispatchMethod { methods := [("GET", .handler 7)], allowed := ["GET"] }
        none "POST" =
      .respond (methodNotAllowed "GET") ∧
    dispatchMethod { methods := [("GET", .handler 7)], allowed := ["GET"] }
        none "GET" = .invoke 7 ∧
    hget (methodNotAllowed "GET").headers "allow" = some "GET" := by
  refine ⟨?_, ?_, ?_⟩
  · have h := C3_method_table_dispatch.2.2.2.1
      { methods := [("GET", .handler 7)], allowed := ["GET"] } none "POST"
      (by decide) (by decide)
    simpa using h
  · have h := C3_method_table_dispatch.2.1
      { methods := [("GET", .handler 7)], allowed := ["GET"] } none "GET"
      (.handler 7) (by decide)
    simpa using h
  · exact (C3_method_table_dispatch.2.2.2.2.1 "GET" (by decide)).2

/-- Counterexample to claim C3 as stated: the empty method table is valid
configuration, and a GET against it is answered 405 with no Allow header
at all — not with an Allow header whose value is the (empty) comma-join
of the declared verbs. -/
theorem C3_empty_table_counterexample :
    dispatchMethod { methods := [], allowed := [] } none "GET" =
      .respond (methodNotAllowed "") ∧
    normaliseMethodTable [] = .ok { methods := [], allowed := [] } ∧
    (methodNotAllowed "").status = 405 ∧
    hget (methodNotAllowed "").headers "allow" = none := by
  refine ⟨rfl, rfl, rfl, by decide⟩

theorem normaliseMethodTableGo_error_of_bad_key
    (entries : List (String × Option TableValue)) (acc : NormTable)
    (h : ∃ kv ∈ entries, METHODS.contains (asciiUpper kv.1) = false ∧
      asciiUpper kv.1 ≠ "ALL") :
    ∃ msg, normaliseMethodTableGo acc entries = .error msg := by
  induction entries generalizing acc with
  | nil => simp at h
  | cons kv rest ih =>
    obtain ⟨bad, hmem, hbad⟩ := h
    obtain ⟨key, value⟩ := kv
    by_cases hall : asciiUpper key = "ALL"
    · have hrest : ∃ kv ∈ rest, METHODS.contains (asciiUpper kv.1) = false ∧
          asciiUpper kv.1 ≠ "ALL" := by
        rcases List.mem_cons.mp hmem with hEq | hIn
        · exfalso
          rw [hEq] at hbad
          exact hbad.2 hall
        · exact ⟨bad, hIn, hbad⟩
      simp only [normaliseMethodTableGo, if_pos hall]
      cases value with
      | some v => exact ih _ hrest
      | none => exact ih _ hrest
    · by_cases hmem2 : METHODS.contains (asciiUpper key) = true
      · have hrest : ∃ kv ∈ rest, METHODS.contains (asciiUpper kv.1) = false ∧
            asciiUpper kv.1 ≠ "ALL" := by
          rcases List.mem_cons.mp hmem with hEq | hIn
          · exfalso
            rw [hEq] at hbad
            rw [hbad.1] at hmem2
            exact Bool.false_ne_true hmem2
          · exact ⟨bad, hIn, hbad⟩
        simp only [normaliseMethodTableGo, if_neg hall, if_pos hmem2]
        cases value with
        | some v => exact ih _ hrest
        | none => exact ih _ hrest
      · exact ⟨"Unsupported HTTP method key " ++ key,
          by simp only [normaliseMethodTableGo, if_neg hall, if_neg hmem2]⟩

/-- Claim C7: a route table containing a method table with a key that is
neither a recognised HTTP verb nor the wildcard makes server
construction fail with a configuration error — the error is raised while
the routes are being compiled at setup, so no request-time handler is
ever produced for such a table. -/
theorem C7_unknown_method_key_is_setup_error :
    ∀ (routes : List (String × RouteEntry)) (pattern : String)
      (entries : List (String × Option TableValue)),
      (pattern, RouteEntry.table entries) ∈ routes →
      (∃ kv ∈ entries, METHODS.contains (asciiUpper kv.1) = false ∧
        asciiUpper kv.1 ≠ "ALL") →
      ∃ msg, mapRoutes routes = .error msg := by
  intro routes pattern entries hmem hbad
  induction routes with
  | nil => simp at hmem
  | cons pr rest ih =>
    obtain ⟨pat, entry⟩ := pr
    rcases List.mem_cons.mp hmem with hEq | hIn
    · have hentry : entry = RouteEntry.table entries := by
        have := congrArg Prod.snd hEq
        exact this.symm
      obtain ⟨msg, hmsg⟩ :=
        normaliseMethodTableGo_error_of_bad_key entries {} hbad
      refine ⟨msg, ?_⟩
      simp only [mapRoutes, hentry, createRouteHandler, normaliseMethodTable,
        hmsg]
      rfl
    · obtain ⟨msg, hmsg⟩ := ih hIn
      cases hch : createRouteHandler entry with
      | error e => exact ⟨e, by simp only [mapRoutes, hch]⟩
      | ok c => exact ⟨msg, by simp only [mapRoutes, hch, hmsg]⟩

/-- Concrete application of C7: a route whose method table uses the key
FETCH makes route compilation fail. -/
theorem C7_unknown_method_key_witness :
    ∃ msg, mapRoutes [("/x", .table [("FETCH", some (.handler 0))])] =
      .error msg :=
  C7_unknown_method_key_is_setup_error
    [("/x", .table [("FETCH", some (.handler 0))])] "/x"
    [("FETCH", some (.handler 0))] (by simp)
    ⟨("FETCH", some (.handler 0)), by simp, by decide, by decide⟩

theorem toNat_ofNat_small (n : Nat) (h : n < 55296) :
    (Char.ofNat n).toNat = n := by
  simp [Char.ofNat, Char.toNat, h]
  rw [dif_pos (Or.inl h)]
  simp [Char.ofNatAux, UInt32.toNat, UInt32.ofNatCore]

theorem charUpper_idem (c : Char) : charUpper (charUpper c) = charUpper c := by
  by_cases h : 'a' ≤ c ∧ c ≤ 'z'
  · have h97 : 97 ≤ c.toNat := by
      have h1 := h.1
      rw [Char.le_def] at h1
      exact h1
    have h122 : c.toNat ≤ 122 := by
      have h2 := h.2
      rw [Char.le_def] at h2
      exact h2
    have hval : (Char.ofNat (c.toNat - 32)).toNat = c.toNat - 32 :=
      toNat_ofNat_small _ (by omega)
    have hstep : charUpper c = Char.ofNat (c.toNat - 32) := by
      unfold charUpper
      rw [if_pos h]
    have hn : ¬('a' ≤ Char.ofNat (c.toNat - 32) ∧
        Char.ofNat (c.toNat - 32) ≤ 'z') := by
      intro hcon
      have h1 := hcon.1
      rw [Char.le_def] at h1
      have h1' : 97 ≤ (Char.ofNat (c.toNat - 32)).toNat := h1
      rw [hval] at h1'
      omega
    rw [hstep]
    unfold charUpper
    rw [if_neg hn]
  · unfold charUpper
    rw [if_neg h, if_neg h]

theorem asciiUpper_idem (s : String) : asciiUpper (asciiUpper s) = asciiUpper s := by
  simp only [asciiUpper]
  have hl : (String.mk (s.toList.map charUpper)).toList =
      s.toList.map charUpper := rfl
  rw [hl, List.map_map]
  exact congrArg String.mk
    (List.map_congr_left fun c _ => charUpper_idem c)

theorem normaliseMethodTableGo_upperKeys
    (entries : List (String × Option TableValue)) (acc : NormTable) :
    (normaliseMethodTableGo acc (upperKeys entries)).toOption =
      (normaliseMethodTableGo acc entries).toOption := by
  induction entries generalizing acc with
  | nil => rfl
  | cons kv rest ih =>
    obtain ⟨key, value⟩ := kv
    rw [show upperKeys ((key, value) :: rest) =
      (asciiUpper key, value) :: upperKeys rest from rfl]
    simp only [normaliseMethodTableGo]
    rw [asciiUpper_idem]
    by_cases hall : asciiUpper key = "ALL"
    · rw [if_pos hall, if_pos hall]
      cases value with
      | some v => exact ih _
      | none => exact ih _
    · rw [if_neg hall, if_neg hall]
      by_cases hmem : METHODS.contains (asciiUpper key) = true
      · rw [if_pos hmem, if_pos hmem]
        cases value with
        | some v => exact ih _
        | none => exact ih _
      · rw [if_neg hmem, if_neg hmem]
        rfl

/-- Claim C10: method-table keys are matched case-insensitively at
configuration time — uppercasing every key first changes nothing about
whether and how the table normalises; a lowercase key like get is
accepted as the verb GET (entered under GET and listed in the allowed
set used for the Allow header); a key like aLl in any case is the
wildcard entry (excluded from the allowed set); and the inbound request
method is uppercased before lookup, so dispatch cannot distinguish a
lowercase method from its uppercase form. -/
theorem C10_method_keys_case_insensitive :
    (∀ entries, (normaliseMethodTable (upperKeys entries)).toOption =
      (normaliseMethodTable entries).toOption) ∧
    (∀ table base? m, dispatchMethod table base? (asciiUpper m) =
      dispatchMethod table base? m) ∧
    (∀ v, normaliseMethodTable [("get", some v)] =
      .ok { methods := [("GET", v)], allowed := ["GET"] }) ∧
    (∀ v, normaliseMethodTable [("aLl", some v)] =
      .ok { methods := [("ALL", v)], allowed := [] }) := by
  refine ⟨fun entries => normaliseMethodTableGo_upperKeys entries {},
    fun table base? m => ?_, fun v => rfl, fun v => rfl⟩
  simp only [dispatchMethod, asciiUpper_idem]

/-- Claim C5: a thrown handler error is caught at the boundary — when the
configured hook returns a response, that response (after base-header
merge) is the final one, keeping its own status (e.g. 555 stays 555);
when the hook returns nothing, throws, or is absent, the generic 500 is
produced. -/
theorem C5_error_hook_boundary :
    (∀ (e : JsError) hook base? r, hook e = Except.ok (some r) →
      executeHandler (.error e) (some hook) base? = applyBaseHeaders r base? ∧
      (executeHandler (.error e) (some hook) base?).status = r.status) ∧
    (∀ (e : JsError) hook base?, hook e = Except.ok none →
      executeHandler (.error e) (some hook) base? =
        applyBaseHeaders internalServerError base? ∧
      (executeHandler (.error e) (some hook) base?).status = 500) ∧
    (∀ (e e2 : JsError) hook base?, hook e = Except.error e2 →
      (executeHandler (.error e) (some hook) base?).status = 500) ∧
    (∀ (e : JsError) base?,
      (executeHandler (.error e) none base?).status = 500) := by
  refine ⟨fun e hook base? r h => ?_, fun e hook base? h => ?_,
    fun e e2 hook base? h => ?_, fun e base? => ?_⟩
  · constructor
    · simp [executeHandler, handleError, h]
    · simp [executeHandler, handleError, h, applyBaseHeaders_status]
  · constructor
    · simp [executeHandler, handleError, h]
    · simp [executeHandler, handleError, h, applyBaseHeaders_status,
        internalServerError]
  · simp [executeHandler, handleError, h, applyBaseHeaders_status,
      internalServerError]
  · simp [executeHandler, applyBaseHeaders_status, internalServerError]

/-- Concrete application of C5: a handler that throws with a hook
answering status 555 ends in a final status of 555, not 500, while the
same throw with a hook that throws again, or with no hook, ends in 500. -/
theorem C5_error_hook_witness :
    (executeHandler (.error ⟨0⟩)
      (some fun _ => .ok (some { status := 555 })) none).status = 555 ∧
    (executeHandler (.error ⟨0⟩)
      (some fun _ => .error ⟨1⟩) none).status = 500 ∧
    (executeHandler (.error ⟨0⟩) none none).status = 500 := by
  refine ⟨?_, ?_, ?_⟩
  · have h := (C5_error_hook_boundary.1 ⟨0⟩
      (fun _ => .ok (some { status := 555 })) none { status := 555 } rfl).2
    simpa using h
  · exact C5_error_hook_boundary.2.2.1 ⟨0⟩ ⟨1⟩ (fun _ => .error ⟨1⟩) none rfl
  · exact C5_error_hook_boundary.2.2.2 ⟨0⟩ none

theorem hasPair_tail {a b c : Char} {l : List Char}
    (h : hasPair a b (c :: l) = false) : hasPair a b l = false := by
  cases l with
  | nil => rfl
  | cons d rest =>
    simp only [hasPair, Bool.or_eq_false_iff] at h
    exact h.2

theorem hasPair_cons_head {a b c d : Char} {l : List Char}
    (h : hasPair a b (c :: d :: l) = false) : ¬(c = a ∧ d = b) := by
  intro hcd
  simp only [hasPair, Bool.or_eq_false_iff] at h
  have := h.1
  simp [hcd.1, hcd.2] at this

theorem hasPair_cons_false (a b x : Char) (l : List Char)
    (hhead : ∀ d rest, l = d :: rest → (x = a ∧ d = b) → False)
    (htail : hasPair a b l = false) : hasPair a b (x :: l) = false := by
  cases l with
  | nil => rfl
  | cons d rest =>
    simp only [hasPair, Bool.or_eq_false_iff]
    refine ⟨?_, htail⟩
    by_cases hc : x = a
    · by_cases hd : d = b
      · exact absurd ⟨hc, hd⟩ (hhead d rest rfl)
      · simp [hd]
    · simp [hc]

theorem hasTriple_tail {a b c x : Char} {l : List Char}
    (h : hasTriple a b c (x :: l) = false) : hasTriple a b c l = false := by
  cases l with
  | nil => rfl
  | cons y rest =>
    cases rest with
    | nil => rfl
    | cons z rest2 =>
      simp only [hasTriple, Bool.or_eq_false_iff] at h
      exact h.2

theorem hasTriple_cons_false (a b c x : Char) (l : List Char)
    (hhead : ∀ y z rest, l = y :: z :: rest → (x = a ∧ y = b ∧ z = c) → False)
    (htail : hasTriple a b c l = false) : hasTriple a b c (x :: l) = false := by
  cases l with
  | nil => rfl
  | cons y rest =>
    cases rest with
    | nil => rfl
    | cons z rest2 =>
      simp only [hasTriple, Bool.or_eq_false_iff]
      refine ⟨?_, htail⟩
      by_cases hx : x = a
      · by_cases hy : y = b
        · by_cases hz : z = c
          · exact absurd ⟨hx, hy, hz⟩ (hhead y z rest2 rfl)
          · simp [hz]
        · simp [hy]
      · simp [hx]

theorem sanLtSlash_no_pair (l : List Char) :
    hasPair '<' '/' (replacePair '<' '/' ['<', '\\', '/'] l) = false := by
  refine replacePair.induct '<' '/' ['<', '\\', '/']
    (fun l => hasPair '<' '/' (replacePair '<' '/' ['<', '\\', '/'] l) = false)
    ?_ ?_ ?_ l
  · intro c d rest h ih
    simp only [replacePair, if_pos h, List.cons_append, List.nil_append]
    refine hasPair_cons_false _ _ _ _ (fun e r he hcon => by
      injection he with h1 h2
      rw [← h1] at hcon
      exact absurd hcon.2 (by decide)) ?_
    refine hasPair_cons_false _ _ _ _ (fun e r he hcon => by
      exact absurd hcon.1 (by decide)) ?_
    refine hasPair_cons_false _ _ _ _ (fun e r he hcon => by
      exact absurd hcon.1 (by decide)) ih
  · intro c d rest h ih
    simp only [replacePair, if_neg h]
    refine hasPair_cons_false _ _ _ _ ?_ ih
    intro e r he hcon
    cases rest with
    | nil =>
      have : ([d] : List Char) = e :: r := he
      injection this with h1 h2
      rw [← h1] at hcon
      exact h hcon
    | cons z rest2 =>
      by_cases h2 : d = '<' ∧ z = '/'
      · simp only [replacePair, if_pos h2, List.cons_append, List.nil_append] at he
        injection he with h1 _
        rw [← h1] at hcon
        exact absurd hcon.2 (by decide)
      · simp only [replacePair, if_neg h2] at he
        injection he with h1 _
        rw [← h1] at hcon
        exact h hcon
  · intro l hl
    cases l with
    | nil => rfl
    | cons c rest =>
      cases rest with
      | nil => rfl
      | cons d rest2 => exact (hl c d rest2 rfl).elim

theorem replaceTriple_preserves_no_pair (l : List Char)
    (h : hasPair '<' '/' l = false) :
    hasPair '<' '/' (replaceTriple '-' '-' '>' ['-', '-', '\\', '>'] l) = false := by
  refine replaceTriple.induct '-' '-' '>' ['-', '-', '\\', '>']
    (fun l => hasPair '<' '/' l = false →
      hasPair '<' '/' (replaceTriple '-' '-' '>' ['-', '-', '\\', '>'] l) = false)
    ?_ ?_ ?_ l h
  · intro x y z rest hm ih hno
    simp only [replaceTriple, if_pos hm, List.cons_append, List.nil_append]
    have hrest : hasPair '<' '/' rest = false :=
      hasPair_tail (hasPair_tail (hasPair_tail hno))
    refine hasPair_cons_false _ _ _ _ (fun e r he hcon => absurd hcon.1 (by decide)) ?_
    refine hasPair_cons_false _ _ _ _ (fun e r he hcon => absurd hcon.1 (by decide)) ?_
    refine hasPair_cons_false _ _ _ _ (fun e r he hcon => absurd hcon.1 (by decide)) ?_
    refine hasPair_cons_false _ _ _ _ (fun e r he hcon => absurd hcon.1 (by decide)) ?_
    exact ih hrest
  · intro x y z rest hm ih hno
    simp only [replaceTriple, if_neg hm]
    refine hasPair_cons_false _ _ _ _ ?_ (ih (hasPair_tail hno))
    intro e r he hcon
    cases rest with
    | nil =>
      have : ([y, z] : List Char) = e :: r := he
      injection this with h1 _
      rw [← h1] at hcon
      exact hasPair_cons_head hno hcon
    | cons w rest2 =>
      by_cases h2 : y = '-' ∧ z = '-' ∧ w = '>'
      · simp only [replaceTriple, if_pos h2, List.cons_append, List.nil_append] at he
        injection he with h1 _
        rw [← h1] at hcon
        exact absurd hcon.2 (by decide)
      · simp only [replaceTriple, if_neg h2] at he
        injection he with h1 _
        rw [← h1] at hcon
        exact hasPair_cons_head hno hcon
  · intro l hl hno
    cases l with
    | nil => exact hno
    | cons c rest =>
      cases rest with
      | nil => exact hno
      | cons d rest2 =>
        cases rest2 with
        | nil => exact hno
        | cons e rest3 => exact (hl c d e rest3 rfl).elim

theorem sanDashGt_no_triple (l : List Char) :
    hasTriple '-' '-' '>' (replaceTriple '-' '-' '>' ['-', '-', '\\', '>'] l) = false := by
  refine replaceTriple.induct '-' '-' '>' ['-', '-', '\\', '>']
    (fun l => hasTriple '-' '-' '>'
      (replaceTriple '-' '-' '>' ['-', '-', '\\', '>'] l) = false)
    ?_ ?_ ?_ l
  · intro x y z rest hm ih
    simp only [replaceTriple, if_pos hm, List.cons_append, List.nil_append]
    refine hasTriple_cons_false _ _ _ _ _ (fun e f r he hcon => by
      injection he with h1 hrest1
      injection hrest1 with h2 _
      rw [← h1] at hcon
      rw [← h2] at hcon
      exact absurd hcon.2.2 (by decide)) ?_
    refine hasTriple_cons_false _ _ _ _ _ (fun e f r he hcon => by
      injection he with h1 _
      rw [← h1] at hcon
      exact absurd hcon.2.1 (by decide)) ?_
    refine hasTriple_cons_false _ _ _ _ _ (fun e f r he hcon =>
      absurd hcon.1 (by decide)) ?_
    refine hasTriple_cons_false _ _ _ _ _ (fun e f r he hcon =>
      absurd hcon.1 (by decide)) ih
  · intro x y z rest hm ih
    simp only [replaceTriple, if_neg hm]
    refine hasTriple_cons_false _ _ _ _ _ ?_ ih
    intro e f r he hcon
    cases rest with
    | nil =>
      have : ([y, z] : List Char) = e :: f :: r := he
      injection this with h1 hrest1
      injection hrest1 with h2 _
      rw [← h1, ← h2] at hcon
      exact hm hcon
    | cons w rest2 =>
      by_cases h2 : y = '-' ∧ z = '-' ∧ w = '>'
      · simp only [replaceTriple, if_pos h2, List.cons_append, List.nil_append] at he
        injection he with h1 hrest1
        injection hrest1 with h2' _
        rw [← h1, ← h2'] at hcon
        exact absurd hcon.2.2 (by decide)
      · simp only [replaceTriple, if_neg h2] at he
        injection he with h1 hrest1
        rw [← h1] at hcon
        cases rest2 with
        | nil =>
          have : ([z, w] : List Char) = f :: r := hrest1
          injection this with hf _
          rw [← hf] at hcon
          exact hm hcon
        | cons u rest3 =>
          by_cases h3 : z = '-' ∧ w = '-' ∧ u = '>'
          · simp only [replaceTriple, if_pos h3, List.cons_append,
              List.nil_append] at hrest1
            injection hrest1 with hf _
            rw [← hf] at hcon
            exact absurd hcon.2.2 (by decide)
          · simp only [replaceTriple, if_neg h3] at hrest1
            injection hrest1 with hf _
            rw [← hf] at hcon
            exact hm hcon
  · intro l hl
    cases l with
    | nil => rfl
    | cons c rest =>
      cases rest with
      | nil => rfl
      | cons d rest2 =>
        cases rest2 with
        | nil => rfl
        | cons e rest3 => exact (hl c d e rest3 rfl).elim

theorem escapeLt_no_lt (l : List Char) : '<' ∉ escapeLt l := by
  induction l with
  | nil => simp [escapeLt]
  | cons c rest ih =>
    simp only [escapeLt]
    by_cases h : c = '<'
    · rw [if_pos h]
      intro hmem
      simp only [List.mem_cons] at hmem
      rcases hmem with h1 | h1 | h1 | h1 | h1 | h1 | h1
      · exact absurd h1 (by decide)
      · exact absurd h1 (by decide)
      · exact absurd h1 (by decide)
      · exact absurd h1 (by decide)
      · exact absurd h1 (by decide)
      · exact absurd h1 (by decide)
      · exact ih h1
    · rw [if_neg h]
      intro hmem
      rcases List.mem_cons.mp hmem with h1 | h1
      · exact h h1.symm
      · exact ih h1

/-- Claim C9: the serialised props payload contains no literal lower-than
character (every one having been escaped to the backslash-u003c
sequence), and the inline bootstrap script as a whole — for every route
string and every initial-props value, and indeed for every input to
sanitizeScript — contains neither the lower-than slash sequence that
could close the script tag nor the dash dash greater-than sequence. -/
theorem C9_bootstrap_script_safety :
    (∀ props : Json, '<' ∉ serializeProps props) ∧
    (∀ value : List Char,
      hasPair '<' '/' (sanitizeScript value) = false ∧
      hasTriple '-' '-' '>' (sanitizeScript value) = false) ∧
    (∀ (route : String) (props? : Option Json),
      hasPair '<' '/' (bootstrapScript route props?) = false ∧
      hasTriple '-' '-' '>' (bootstrapScript route props?) = false) :=
  ⟨fun props => escapeLt_no_lt (jsonStringify props),
    fun value =>
      ⟨replaceTriple_preserves_no_pair _ (sanLtSlash_no_pair value),
        sanDashGt_no_triple _⟩,
    fun _ _ =>
      ⟨replaceTriple_preserves_no_pair _ (sanLtSlash_no_pair _),
        sanDashGt_no_triple _⟩⟩

theorem buildComponentDescriptors_mem (baseDir : List String)
    (pages : List (String × JSXPage)) (ds : List (String × HydrateOpt × NormalizedComponent))
    (hok : buildComponentDescriptors baseDir pages = .ok ds)
    (route : String) (page : JSXPage) (hmem : (route, page) ∈ pages)
    (d : NormalizedComponent)
    (hnorm : normalizeComponentSpec page.component baseDir = .ok d) :
    (route, page.hydrate, d) ∈ ds := by
  induction pages generalizing ds with
  | nil => simp at hmem
  | cons pr rest ih =>
    obtain ⟨r0, p0⟩ := pr
    simp only [buildComponentDescriptors] at hok
    cases hn : normalizeComponentSpec p0.component baseDir with
    | error e => rw [hn] at hok; exact absurd hok (by simp)
    | ok d0 =>
      rw [hn] at hok
      cases hrest : buildComponentDescriptors baseDir rest with
      | error e => rw [hrest] at hok; exact absurd hok (by simp)
      | ok ds0 =>
        rw [hrest] at hok
        have hds : ds = (r0, p0.hydrate, d0) :: ds0 := by
          cases hok
          rfl
        subst hds
        rcases List.mem_cons.mp hmem with hEq | hIn
        · have hr : r0 = route := (congrArg Prod.fst hEq).symm
          have hp : p0 = page := by
            have := congrArg Prod.snd hEq
            exact this.symm
          subst hr
          subst hp
          rw [hnorm] at hn
          cases hn
          exact List.mem_cons_self _ _
        · exact List.mem_cons_of_mem _ (ih ds0 hrest hIn)

theorem ensureAllPages_error_of_mem
    (ds : List (String × HydrateOpt × NormalizedComponent))
    (route : String) (hydrate : HydrateOpt) (d : NormalizedComponent)
    (hmem : (route, hydrate, d) ∈ ds)
    (herr : wantsHydration hydrate = true) (href : d.reference = none) :
    ∃ msg, ensureAllPages ds = .error msg := by
  induction ds with
  | nil => simp at hmem
  | cons triple rest ih =>
    obtain ⟨r0, h0, d0⟩ := triple
    rcases List.mem_cons.mp hmem with hEq | hIn
    · have hh : h0 = hydrate := (congrArg (fun t => t.2.1) hEq).symm
      have hd : d0 = d := (congrArg (fun t => t.2.2) hEq).symm
      cases hens : ensureHydratableCapability r0 h0 d0 false with
      | error e => exact ⟨e, by simp only [ensureAllPages, hens]⟩
      | ok u =>
        exfalso
        rw [hh, hd] at hens
        simp [ensureHydratableCapability, herr, href] at hens
    · cases hens : ensureHydratableCapability r0 h0 d0 false with
      | error e => exact ⟨e, by simp only [ensureAllPages, hens]⟩
      | ok u =>
        obtain ⟨msg, hmsg⟩ := ih hIn
        exact ⟨msg, by simp only [ensureAllPages, hens, hmsg]⟩

/-- Claim C8: hydration is requested exactly when hydrate is omitted,
true, or a function; a checked page requesting hydration whose component
normalises without a module reference makes JSX setup fail before any
request handler exists, and a page with hydrate false never triggers
this error. -/
theorem C8_hydration_requires_module_reference :
    (∀ route hydrate descriptor isNotFound,
      (ensureHydratableCapability route hydrate descriptor
        isNotFound).toOption.isSome =
      (!wantsHydration hydrate || descriptor.reference.isSome)) ∧
    (∀ route descriptor isNotFound,
      ensureHydratableCapability route (.flag false) descriptor isNotFound =
        .ok ()) ∧
    (∀ pages notFoundPage baseDir route page d,
      (route, page) ∈ pages →
      wantsHydration page.hydrate = true →
      normalizeComponentSpec page.component baseDir = .ok d →
      d.reference = none →
      ∃ msg, prepareJSXEnvironment pages notFoundPage baseDir = .error msg) ∧
    (∀ pages nf baseDir d,
      wantsHydration nf.hydrate = true →
      normalizeComponentSpec nf.component baseDir = .ok d →
      d.reference = none →
      ∃ msg, prepareJSXEnvironment pages (some nf) baseDir = .error msg) := by
  refine ⟨fun route hydrate descriptor isNotFound => ?_,
    fun route descriptor isNotFound => ?_,
    fun pages notFoundPage baseDir route page d hmem hw hn href => ?_,
    fun pages nf baseDir d hw hn href => ?_⟩
  · unfold ensureHydratableCapability
    by_cases h : wantsHydration hydrate ∧ descriptor.reference = none
    · rw [if_pos h]
      have h2 : descriptor.reference.isSome = false := by
        rw [h.2]
        rfl
      rw [h.1, h2]
      rfl
    · rw [if_neg h]
      rcases Decidable.not_and_iff_or_not.mp h with h1 | h1
      · simp only [Bool.not_eq_true] at h1
        rw [h1]
        rfl
      · have h2 : descriptor.reference.isSome = true := by
          cases hr : descriptor.reference with
          | none => exact absurd hr h1
          | some v => rfl
        rw [h2, Bool.or_true]
        rfl
  · simp [ensureHydratableCapability, wantsHydration]
  · have hne : pages.isEmpty = false := by
      cases pages with
      | nil => simp at hmem
      | cons a l => rfl
    unfold prepareJSXEnvironment
    rw [hne]
    simp only [Bool.false_eq_true, if_false]
    cases hbuild : buildComponentDescriptors baseDir pages with
    | error e => exact ⟨e, rfl⟩
    | ok ds =>
      have hm := buildComponentDescriptors_mem baseDir pages ds hbuild
        route page hmem d hn
      obtain ⟨msg, hmsg⟩ := ensureAllPages_error_of_mem ds route page.hydrate d
        hm hw href
      exact ⟨msg, by simp only [hmsg]⟩
  · unfold prepareJSXEnvironment
    by_cases hne : pages.isEmpty
    · rw [if_pos hne]
      exact ⟨_, rfl⟩
    · rw [if_neg hne]
      cases hbuild : buildComponentDescriptors baseDir pages with
      | error e => exact ⟨e, rfl⟩
      | ok ds =>
        cases hens : ensureAllPages ds with
        | error e => exact ⟨e, by simp only [hens]⟩
        | ok u =>
          cases u
          have herr : ensureHydratableCapability "notFound" nf.hydrate d true =
              .error ("notFoundPage" ++
                " is configured to hydrate but no module reference was provided") := by
            simp [ensureHydratableCapability, hw, href]
          refine ⟨"notFoundPage" ++
            " is configured to hydrate but no module reference was provided", ?_⟩
          simp only [hens, hn, herr]

/-- Concrete application of C8: a single page whose component is an
in-process function with hydration left on fails setup, while the same
page with hydrate false passes the capability check. -/
theorem C8_hydration_witness :
    (∃ msg, prepareJSXEnvironment
      [("/", { component := .func 0 })] none [] = .error msg) ∧
    ensureHydratableCapability "/" (.flag false)
      { component := some 0 } false = .ok () := by
  constructor
  · exact C8_hydration_requires_module_reference.2.2.1
      [("/", { component := .func 0 })] none [] "/" { component := .func 0 }
      { component := some 0 } (by simp) rfl rfl rfl
  · exact C8_hydration_requires_module_reference.2.1 "/" { component := some 0 } false

/-- Counterexample to claim C4 as stated: with the route pattern /a
declared and a static handler that produces a response for every
request, the request to /a is answered by the route handler's response
(status 201), not by the response the first static handler produced
(status 200) — so static handlers are not tried first on
route-matching requests. -/
theorem C4_static_first_counterexample :
    serveRequest [("/a", fun _ => { status := 201 })]
      (fetchHandler [fun _ => some { status := 200 }] none none none)
      { method := "GET", path := "/a" } = { status := 201 } ∧
    (fun (_ : Request) => some ({ status := 200 } : HttpResponse))
      { method := "GET", path := "/a" } = some { status := 200 } ∧
    ({ status := 201 } : HttpResponse) ≠ ({ status := 200 } : HttpResponse) := by
  refine ⟨rfl, rfl, ?_⟩
  intro h
  have := congrArg HttpResponse.status h
  simp at this

/-- Claim C4 as amended: the host consults the route table first — a
request whose path matches a declared pattern is answered by that
pattern's handler; only a request matching no pattern reaches the fetch
fallback, which tries each configured static handler in declaration
order and returns the first produced response, after which the
configured not-found entry runs if present, else the generic 404 is
returned (base headers merged throughout). -/
theorem C4_request_pipeline :
    (∀ (routes : List (String × RouteHandlerFn)) fallback req h,
      (routes.find? fun pr => pr.1 == req.path) = some h →
      serveRequest routes fallback req = h.2 req) ∧
    (∀ (routes : List (String × RouteHandlerFn)) fallback req,
      (routes.find? fun pr => pr.1 == req.path) = none →
      serveRequest routes fallback req = fallback req) ∧
    (∀ statics nf hook base? req r, firstStatic statics req = some r →
      fetchHandler statics nf hook base? req = r) ∧
    (∀ (h : StaticHandler) rest req r, h req = some r →
      firstStatic (h :: rest) req = some r) ∧
    (∀ (h : StaticHandler) rest req, h req = none →
      firstStatic (h :: rest) req = firstStatic rest req) ∧
    (∀ statics hook base? req r, firstStatic statics req = none →
      fetchHandler statics (some (.response r)) hook base? req =
        cloneResponse r base?) ∧
    (∀ statics hook base? req h, firstStatic statics req = none →
      fetchHandler statics (some (.handler h)) hook base? req =
        executeHandler (h req) hook base?) ∧
    (∀ statics hook base? req, firstStatic statics req = none →
      fetchHandler statics none hook base? req =
        applyBaseHeaders notFoundResponse base?) := by
  refine ⟨fun routes fallback req h hfind => ?_,
    fun routes fallback req hfind => ?_,
    fun statics nf hook base? req r hfirst => ?_,
    fun h rest req r hr => ?_, fun h rest req hr => ?_,
    fun statics hook base? req r hfirst => ?_,
    fun statics hook base? req h hfirst => ?_,
    fun statics hook base? req hfirst => ?_⟩
  · simp [serveRequest, hfind]
  · simp [serveRequest, hfind]
  · simp [fetchHandler, hfirst]
  · simp [firstStatic, hr]
  · simp [firstStatic, hr]
  · simp [fetchHandler, hfirst]
  · simp only [fetchHandler, hfirst, executeHandler]
  · simp [fetchHandler, hfirst]

/-- Concrete application of the amended C4 pipeline: a request matching
a declared pattern is answered by the route handler; an unmatched
request takes the first static response; an unmatched request with no
static hit and no notFound entry gets the generic 404. -/
theorem C4_request_pipeline_witness :
    serveRequest [("/a", fun _ => { status := 201 })]
      (fetchHandler [] none none none) { method := "GET", path := "/a" } =
      { status := 201 } ∧
    serveRequest [("/a", fun _ => { status := 201 })]
      (fetchHandler [fun _ => some { status := 200 }] none none none)
      { method := "GET", path := "/b" } = { status := 200 } ∧
    serveRequest [] (fetchHandler [] none none none)
      { method := "GET", path := "/b" } = notFoundResponse := by
  refine ⟨?_, ?_, ?_⟩
  · exact C4_request_pipeline.1 [("/a", fun _ => { status := 201 })]
      (fetchHandler [] none none none) { method := "GET", path := "/a" }
      ("/a", fun _ => { status := 201 }) rfl
  · have h1 := C4_request_pipeline.2.1 [("/a", fun _ => { status := 201 })]
      (fetchHandler [fun _ => some { status := 200 }] none none none)
      { method := "GET", path := "/b" } rfl
    have h2 := C4_request_pipeline.2.2.1
      [fun _ => some ({ status := 200 } : HttpResponse)] none none none
      { method := "GET", path := "/b" } { status := 200 } rfl
    rw [h1, h2]
  · have h1 := C4_request_pipeline.2.1 []
      (fetchHandler [] none none none) { method := "GET", path := "/b" } rfl
    have h2 := C4_request_pipeline.2.2.2.2.2.2.2 [] none none
      { method := "GET", path := "/b" } rfl
    rw [h1, h2]
    rfl

end HyperBun

